import Mathlib

/-!
Verification of the logging-destination resolution core of `aitios-cli`
(`src/run.rs`): the destination normalizer `log_arg_to_log_path`, the
aggregator `canonical_log_file_paths`, the default-name synthesizer
`synthesize_datetime_log_filename`, and the sink assembly functions
`configure_logging` / `init_logging` / `init_logging_fallback`.

The filesystem is modelled symlink-free: a canonical path is a list of
component names (of an absolute path), the filesystem state records which
canonical paths exist as directories and which as regular files, plus the
canonical current working directory.  Raw destination strings are parsed
into components following Rust `std::path::Path` semantics (split on `/`,
empty components dropped, `.` components dropped except a leading one in a
relative path).  Path resolution walks components, requiring every
traversed prefix to be an existing directory, exactly as `stat` would.
`PathBuf` values are compared by components in Rust, so the component-list
representation is equality-faithful.

Fallible operations return `Option`/structured errors; the two `.unwrap()`
calls of the source (`create_dir_all(parent).unwrap()` and
`path.file_name().unwrap()`) are modelled as an explicit `panicked`
outcome, since a panic is observably different from a returned error.
-/

/-- One Rust `Path` component: `.` (CurDir), `..` (ParentDir), or a normal name. -/
inductive PComp where
  | cur : PComp
  | up : PComp
  | normal (name : String) : PComp
deriving DecidableEq, Inhabited, Repr

/-- Symlink-free filesystem state: the canonical cwd, the set of existing
directories and the set of existing regular files, all as canonical
absolute component lists (root is `[]`). -/
structure Fs where
  cwdPath : List String
  dirs : List (List String)
  files : List (List String)
deriving DecidableEq, Repr

/-- Split a character list at `/` (like `str::split('/')`). -/
def splitSlashAux : List Char → List Char → List (List Char)
  | acc, [] => [acc.reverse]
  | acc, c :: rest =>
    if c = '/' then acc.reverse :: splitSlashAux [] rest
    else splitSlashAux (c :: acc) rest

/-- Classify one non-empty path token as a Rust path component. -/
def tokenToComp (t : List Char) : PComp :=
  if t = ['.'] then PComp.cur
  else if t = ['.', '.'] then PComp.up
  else PComp.normal (String.mk t)

/-- Parse a path string into (is-absolute, components), following Rust
`Path::components`: empty tokens are dropped, `.` tokens are dropped except
a single leading one in a relative path. -/
def parsePath (s : String) : Bool × List PComp :=
  let abs : Bool := match s.data with | '/' :: _ => true | _ => false
  let toks := (splitSlashAux [] s.data).filter (fun t => t ≠ [])
  let comps := toks.map tokenToComp
  let comps :=
    match comps with
    | PComp.cur :: rest => (if abs then [] else [PComp.cur]) ++ rest.filter (fun c => c ≠ PComp.cur)
    | cs => cs.filter (fun c => c ≠ PComp.cur)
  (abs, comps)

/-- Apply one component to a canonical path (`..` at root stays at root). -/
def stepComp (acc : List String) : PComp → List String
  | PComp.cur => acc
  | PComp.up => acc.dropLast
  | PComp.normal s => acc ++ [s]

/-- Resolve components against a base, requiring every path that a component
is consumed from to be an existing directory (as `stat` does). -/
def walkD (dirs : List (List String)) : List String → List PComp → Option (List String)
  | acc, [] => some acc
  | acc, c :: rest => if acc ∈ dirs then walkD dirs (stepComp acc c) rest else none

/-- Base of resolution: filesystem root for absolute paths, cwd otherwise. -/
def startBase (fs : Fs) (abs : Bool) : List String :=
  if abs then [] else fs.cwdPath

/-- Resolve a parsed path; the empty relative path resolves to nothing
(`stat("")` fails with ENOENT). -/
def resolveComps (fs : Fs) (abs : Bool) (cs : List PComp) : Option (List String) :=
  if abs = false ∧ cs = [] then none
  else walkD fs.dirs (startBase fs abs) cs

/-- Resolve a raw path string. -/
def resolveStr (fs : Fs) (s : String) : Option (List String) :=
  resolveComps fs (parsePath s).1 (parsePath s).2

/-- `Path::is_dir` on parsed components. -/
def rustIsDirComps (fs : Fs) (abs : Bool) (cs : List PComp) : Bool :=
  match resolveComps fs abs cs with
  | some p => decide (p ∈ fs.dirs)
  | none => false

/-- `Path::is_dir` on a path string. -/
def rustIsDir (fs : Fs) (s : String) : Bool :=
  rustIsDirComps fs (parsePath s).1 (parsePath s).2

/-- `Path::is_file` on parsed components. -/
def rustIsFileComps (fs : Fs) (abs : Bool) (cs : List PComp) : Bool :=
  match resolveComps fs abs cs with
  | some p => decide (p ∈ fs.files)
  | none => false

/-- `Path::is_file` on a path string. -/
def rustIsFile (fs : Fs) (s : String) : Bool :=
  rustIsFileComps fs (parsePath s).1 (parsePath s).2

/-- `Path::canonicalize` on parsed components: resolve, and fail unless the
result exists (canonicalize requires an existing path). -/
def canonicalizeComps (fs : Fs) (abs : Bool) (cs : List PComp) : Option (List String) :=
  match resolveComps fs abs cs with
  | some p => if p ∈ fs.dirs ∨ p ∈ fs.files then some p else none
  | none => none

/-- `Path::canonicalize` on a path string. -/
def canonicalizeStr (fs : Fs) (s : String) : Option (List String) :=
  canonicalizeComps fs (parsePath s).1 (parsePath s).2

/-- `std::fs::create_dir_all`: walk components from the base, creating each
missing directory, failing (`none`) if an existing regular file or a missing
base is in the way.  Returns the new directory set and the final position. -/
def createWalk (files : List (List String)) :
    List (List String) → List String → List PComp → Option (List (List String) × List String)
  | dirs, acc, [] => some (dirs, acc)
  | dirs, acc, PComp.cur :: rest =>
    if acc ∈ dirs then createWalk files dirs acc rest else none
  | dirs, acc, PComp.up :: rest =>
    if acc ∈ dirs then createWalk files dirs acc.dropLast rest else none
  | dirs, acc, PComp.normal n :: rest =>
    if acc ++ [n] ∈ dirs then createWalk files dirs (acc ++ [n]) rest
    else if acc ++ [n] ∈ files then none
    else if acc ∈ dirs then createWalk files ((acc ++ [n]) :: dirs) (acc ++ [n]) rest
    else none

/-- `create_dir_all` at the filesystem level. -/
def create_dir_all (fs : Fs) (abs : Bool) (cs : List PComp) : Option Fs :=
  match createWalk fs.files fs.dirs (startBase fs abs) cs with
  | some (d, _) => some { fs with dirs := d }
  | none => none

/-- `Path::file_name` of parsed components: the last component if it is a
normal name, else `none`. -/
def fileNameC (cs : List PComp) : Option String :=
  match cs.getLast? with
  | some (PComp.normal n) => some n
  | _ => none

/-- Replace every (non-overlapping, left-to-right) occurrence of the literal
token `{datetime}` by `rep`, like `str::replace`. -/
def replaceDatetime (rep : List Char) : List Char → List Char
  | '{' :: 'd' :: 'a' :: 't' :: 'e' :: 't' :: 'i' :: 'm' :: 'e' :: '}' :: rest =>
    rep ++ replaceDatetime rep rest
  | c :: rest => c :: replaceDatetime rep rest
  | [] => []

/-- `arg.replace("\x7bdatetime\x7d", datetime)`. -/
def substDatetime (s dt : String) : String :=
  String.mk (replaceDatetime dt.data s.data)

/-- `synthesize_datetime_log_filename` from `run.rs`. -/
def synthesize_datetime_log_filename (datetime : String) : String :=
  "aitios-log-" ++ datetime ++ ".log"

/-- Errors of normalization: an io error propagated with `?` (from
`canonicalize` or `current_dir`), or the `format_err!` "cannot be resolved"
error, which carries the (substituted) argument string. -/
inductive LogErr where
  | ioError : LogErr
  | unresolvable (arg : String) : LogErr
deriving DecidableEq, Repr

/-- Outcome of one normalization: a canonical path, a returned error, or a
process panic (from one of the two `.unwrap()` calls in the source). -/
inductive LogRes where
  | ok (p : List String) : LogRes
  | err (e : LogErr) : LogRes
  | panicked : LogRes
deriving DecidableEq, Repr

/-- The part of `log_arg_to_log_path` after `\x7bdatetime\x7d` substitution,
for the branch where the path does not exist: inspect the parent, embedding
lines 266-290 of `run.rs` (`parent.is_dir()` branch and the
`create_dir_all(parent).unwrap()` branch). -/
def resolveParentAppend (fs : Fs) (abs : Bool) (pcs : List PComp) (fname : Option String) :
    LogRes × Fs :=
  if rustIsDirComps fs abs pcs then
    match canonicalizeComps fs abs pcs with
    | some q =>
      match fname with
      | some f => (LogRes.ok (q ++ [f]), fs)
      | none => (LogRes.panicked, fs)
    | none => (LogRes.err LogErr.ioError, fs)
  else
    match create_dir_all fs abs pcs with
    | none => (LogRes.panicked, fs)
    | some fs' =>
      match canonicalizeComps fs' abs pcs with
      | some q =>
        match fname with
        | some f => (LogRes.ok (q ++ [f]), fs')
        | none => (LogRes.panicked, fs')
      | none => (LogRes.err LogErr.ioError, fs')

/-- `log_arg_to_log_path` applied to the already-substituted argument. -/
def logPathOfSubst (fs : Fs) (arg datetime : String) : LogRes × Fs :=
  let abs := (parsePath arg).1
  let cs := (parsePath arg).2
  if rustIsDir fs arg then
    -- existing directory: canonicalize and append the default filename
    match canonicalizeStr fs arg with
    | some p => (LogRes.ok (p ++ [synthesize_datetime_log_filename datetime]), fs)
    | none => (LogRes.err LogErr.ioError, fs)
  else if rustIsFile fs arg then
    -- existing regular file: canonicalize directly
    match canonicalizeStr fs arg with
    | some p => (LogRes.ok p, fs)
    | none => (LogRes.err LogErr.ioError, fs)
  else if cs = [] then
    -- no parent at all: the `format_err!` branch, message holds `arg`
    (LogRes.err (LogErr.unresolvable arg), fs)
  else if abs = false ∧ cs.length = 1 then
    -- parent is the empty string: canonicalize cwd and push the argument
    if fs.cwdPath ∈ fs.dirs then (LogRes.ok (stepComp fs.cwdPath cs.headI), fs)
    else (LogRes.err LogErr.ioError, fs)
  else
    resolveParentAppend fs abs cs.dropLast (fileNameC cs)

/-- `log_arg_to_log_path` from `run.rs`. -/
def log_arg_to_log_path (fs : Fs) (arg datetime : String) : LogRes × Fs :=
  logPathOfSubst fs (substDatetime arg datetime) datetime

/-- The raw destination strings processed by `canonical_log_file_paths`, in
order: explicit CLI values, then exactly one synthesized default if the flag
occurred more often than it carried values, then the injected destinations. -/
def logEntries (explicit : List String) (occurrences : Nat) (additional : List String)
    (dt : String) : List String :=
  explicit ++
    (if explicit.length < occurrences then [synthesize_datetime_log_filename dt] else []) ++
    additional

/-- Normalize every entry in order, threading the filesystem (directory
creation is a side effect); `none` models a panic aborting the whole run. -/
def runEntries (dt : String) : Fs → List String →
    Option (List (Except LogErr (List String)) × Fs)
  | fs, [] => some ([], fs)
  | fs, a :: rest =>
    match log_arg_to_log_path fs a dt with
    | (LogRes.panicked, _) => none
    | (LogRes.ok p, fs') =>
      (runEntries dt fs' rest).map (fun pr => (Except.ok p :: pr.1, pr.2))
    | (LogRes.err e, fs') =>
      (runEntries dt fs' rest).map (fun pr => (Except.error e :: pr.1, pr.2))

/-- Set-insertion keyed on canonical-path equality (the `HashSet<PathBuf>`). -/
def insertPath (p : List String) (s : List (List String)) : List (List String) :=
  if p ∈ s then s else p :: s

/-- `collect::<Result<HashSet<_>, _>>`: first error wins, otherwise the
deduplicated set of all canonical paths. -/
def collectPaths : List (Except LogErr (List String)) → Except LogErr (List (List String))
  | [] => Except.ok []
  | Except.error e :: _ => Except.error e
  | Except.ok p :: rest => (collectPaths rest).map (insertPath p)

/-- The first error among the normalization results. -/
def firstErr : List (Except LogErr (List String)) → Option LogErr
  | [] => none
  | Except.error e :: _ => some e
  | Except.ok _ :: rest => firstErr rest

/-- `canonical_log_file_paths` from `run.rs`: normalize all entries eagerly
(in source order), then collect into a deduplicated set, aborting with the
first error; `none` is a panic. -/
def canonical_log_file_paths (fs : Fs) (explicit : List String) (occurrences : Nat)
    (additional : List String) (dt : String) :
    Option (Except LogErr (List (List String)) × Fs) :=
  (runEntries dt fs (logEntries explicit occurrences additional dt)).map
    (fun pr => (collectPaths pr.1, pr.2))

/-- `simplelog::LevelFilter` severity floors used by `run.rs`. -/
inductive LevelFilter where
  | Warn : LevelFilter
  | Info : LevelFilter
  | Debug : LevelFilter
deriving DecidableEq, Repr

/-- The installed global logging backend: either the `CombinedLogger` (one
console sink with its floor plus one file sink per canonical path, each at
Debug) or the fallback `TermLogger`. -/
inductive SinkKind where
  | combined (console : LevelFilter) (fileSinks : List (List String)) : SinkKind
  | term (lvl : LevelFilter) : SinkKind
deriving DecidableEq, Repr

/-- World state for sink assembly: the filesystem, whether a terminal is
available (`TermLogger::new` succeeds), the at-most-once installed global
logger, and the destinations whose `create_file_recursively` fails. -/
structure LogWorld where
  fs : Fs
  termAvailable : Bool
  installed : Option SinkKind
  badPaths : List (List String)
deriving DecidableEq, Repr

/-- Console severity floor from `-v` occurrences: 0 → Warn, 1 → Info, ≥2 → Debug. -/
def consoleLevel : Nat → LevelFilter
  | 0 => LevelFilter.Warn
  | 1 => LevelFilter.Info
  | _ => LevelFilter.Debug

/-- Open/create each log file in turn (`create_file_recursively`), stopping
at the first failure; returns whether all succeeded. -/
def createFiles (bad : List (List String)) : Fs → List (List String) → Bool × Fs
  | fs, [] => (true, fs)
  | fs, p :: rest =>
    if p ∈ bad then (false, fs)
    else createFiles bad { fs with files := p :: fs.files } rest

/-- Outcome of logging setup: success, a returned error, or a panic. -/
inductive InitRes where
  | ok : InitRes
  | err : InitRes
  | panicked : InitRes
deriving DecidableEq, Repr

/-- `configure_logging` from `run.rs`: console sink first, then the
aggregated canonical paths, then one file sink per path, then
`CombinedLogger::init` (which fails if a logger is already installed). -/
def configure_logging (w : LogWorld) (verbosity : Nat) (explicit : List String)
    (occurrences : Nat) (additional : List String) (dt : String) : InitRes × LogWorld :=
  if w.termAvailable = false then (InitRes.err, w)
  else
    match canonical_log_file_paths w.fs explicit occurrences additional dt with
    | none => (InitRes.panicked, w)
    | some (Except.error _, fs') => (InitRes.err, { w with fs := fs' })
    | some (Except.ok paths, fs') =>
      match createFiles w.badPaths fs' paths with
      | (false, fs'') => (InitRes.err, { w with fs := fs'' })
      | (true, fs'') =>
        match w.installed with
        | some _ => (InitRes.err, { w with fs := fs'' })
        | none =>
          (InitRes.ok,
            { w with fs := fs'',
                     installed := some (SinkKind.combined (consoleLevel verbosity) paths) })

/-- `init_logging_fallback`: `TermLogger::init(LevelFilter::Warn, ..)`, which
needs a terminal and no previously installed logger. -/
def init_logging_fallback (w : LogWorld) : InitRes × LogWorld :=
  if w.termAvailable = true ∧ w.installed = none then
    (InitRes.ok, { w with installed := some (SinkKind.term LevelFilter.Warn) })
  else (InitRes.err, w)

/-- `init_logging`: run `configure_logging`; on an error result (not on a
panic) fall back to the console-only Warn logger. -/
def init_logging (w : LogWorld) (verbosity : Nat) (explicit : List String)
    (occurrences : Nat) (additionalLogPath : Option String) (dt : String) : InitRes × LogWorld :=
  match configure_logging w verbosity explicit occurrences additionalLogPath.toList dt with
  | (InitRes.ok, w') => (InitRes.ok, w')
  | (InitRes.err, w') => init_logging_fallback w'
  | (InitRes.panicked, w') => (InitRes.panicked, w')

/-- Directory sets of real filesystems are closed under taking the parent. -/
def ClosedDirs (dirs : List (List String)) : Prop :=
  ∀ q ∈ dirs, q.dropLast ∈ dirs

/-- A small concrete filesystem: root and the cwd `/w` exist, nothing else. -/
def fs1 : Fs := { cwdPath := ["w"], dirs := [[], ["w"]], files := [] }

/-- Like `fs1` but `/w/plain.log` exists as a directory. -/
def fs2 : Fs := { cwdPath := ["w"], dirs := [[], ["w"], ["w", "plain.log"]], files := [] }

/-- Like `fs1` but `/w/f` exists as a regular file. -/
def fs3 : Fs := { cwdPath := ["w"], dirs := [[], ["w"]], files := [["w", "f"]] }

/-- `fs1` after normalizing `c/f/../f` once (it created `/w/c` and `/w/c/f`). -/
def fsC3 : Fs := { cwdPath := ["w"], dirs := [["w", "c", "f"], ["w", "c"], [], ["w"]], files := [] }

/-- `fs1` after normalizing `a/b.log` once (it created `/w/a`). -/
def fsA : Fs := { cwdPath := ["w"], dirs := [["w", "a"], [], ["w"]], files := [] }

/-- World without a terminal and with no logger installed. -/
def w0 : LogWorld := { fs := fs1, termAvailable := false, installed := none, badPaths := [] }

/-- World with a terminal, no logger installed, and `/w/bad.log` unwritable. -/
def w1 : LogWorld :=
  { fs := fs1, termAvailable := true, installed := none, badPaths := [["w", "bad.log"]] }

/-! ### Resolution and directory-creation lemmas -/

lemma walkD_append (d : List (List String)) (b : List String) (xs ys : List PComp) :
    walkD d b (xs ++ ys) = (walkD d b xs).bind (fun m => walkD d m ys) := by
  induction xs generalizing b with
  | nil => simp [walkD]
  | cons c rest ih =>
    by_cases h : b ∈ d
    · simp [walkD, h, ih]
    · simp [walkD, h]

lemma walkD_concat_some {d : List (List String)} {b : List String} {xs : List PComp}
    {c : PComp} {p : List String} (h : walkD d b (xs ++ [c]) = some p) :
    ∃ m, walkD d b xs = some m ∧ m ∈ d ∧ p = stepComp m c := by
  rw [walkD_append] at h
  cases hw : walkD d b xs with
  | none => rw [hw] at h; simp at h
  | some m =>
    rw [hw] at h
    have h2 : walkD d m [c] = some p := h
    simp only [walkD] at h2
    by_cases hm : m ∈ d
    · rw [if_pos hm] at h2
      exact ⟨m, rfl, hm, (Option.some.inj h2).symm⟩
    · rw [if_neg hm] at h2; simp at h2

lemma createWalk_subset {files : List (List String)} :
    ∀ (cs : List PComp) (dirs : List (List String)) (acc : List String)
      (d' : List (List String)) (a : List String),
      createWalk files dirs acc cs = some (d', a) → dirs ⊆ d' := by
  intro cs
  induction cs with
  | nil =>
    intro dirs acc d' a h
    simp only [createWalk] at h
    obtain ⟨h1, _⟩ := Prod.mk.injEq .. ▸ Option.some.inj h
    exact h1 ▸ List.Subset.refl _
  | cons c rest ih =>
    intro dirs acc d' a h
    cases c with
    | cur =>
      simp only [createWalk] at h
      by_cases hm : acc ∈ dirs
      · rw [if_pos hm] at h; exact ih dirs acc d' a h
      · rw [if_neg hm] at h; exact absurd h (by simp)
    | up =>
      simp only [createWalk] at h
      by_cases hm : acc ∈ dirs
      · rw [if_pos hm] at h; exact ih dirs acc.dropLast d' a h
      · rw [if_neg hm] at h; exact absurd h (by simp)
    | normal n =>
      simp only [createWalk] at h
      by_cases h1 : acc ++ [n] ∈ dirs
      · rw [if_pos h1] at h; exact ih dirs (acc ++ [n]) d' a h
      · rw [if_neg h1] at h
        by_cases h2 : acc ++ [n] ∈ files
        · rw [if_pos h2] at h; exact absurd h (by simp)
        · rw [if_neg h2] at h
          by_cases h3 : acc ∈ dirs
          · rw [if_pos h3] at h
            exact fun x hx => ih _ _ d' a h (List.mem_cons_of_mem _ hx)
          · rw [if_neg h3] at h; exact absurd h (by simp)

lemma dropLast_concat' (l : List String) (n : String) : (l ++ [n]).dropLast = l := by
  simp

lemma createWalk_closed {files : List (List String)} :
    ∀ (cs : List PComp) (dirs : List (List String)) (acc : List String)
      (d' : List (List String)) (a : List String),
      ClosedDirs dirs → createWalk files dirs acc cs = some (d', a) → ClosedDirs d' := by
  intro cs
  induction cs with
  | nil =>
    intro dirs acc d' a hc h
    simp only [createWalk] at h
    obtain ⟨h1, _⟩ := Prod.mk.injEq .. ▸ Option.some.inj h
    exact h1 ▸ hc
  | cons c rest ih =>
    intro dirs acc d' a hc h
    cases c with
    | cur =>
      simp only [createWalk] at h
      by_cases hm : acc ∈ dirs
      · rw [if_pos hm] at h; exact ih dirs acc d' a hc h
      · rw [if_neg hm] at h; exact absurd h (by simp)
    | up =>
      simp only [createWalk] at h
      by_cases hm : acc ∈ dirs
      · rw [if_pos hm] at h; exact ih dirs acc.dropLast d' a hc h
      · rw [if_neg hm] at h; exact absurd h (by simp)
    | normal n =>
      simp only [createWalk] at h
      by_cases h1 : acc ++ [n] ∈ dirs
      · rw [if_pos h1] at h; exact ih dirs (acc ++ [n]) d' a hc h
      · rw [if_neg h1] at h
        by_cases h2 : acc ++ [n] ∈ files
        · rw [if_pos h2] at h; exact absurd h (by simp)
        · rw [if_neg h2] at h
          by_cases h3 : acc ∈ dirs
          · rw [if_pos h3] at h
            refine ih _ _ d' a ?_ h
            intro q hq
            rcases List.mem_cons.mp hq with hq | hq
            · subst hq
              rw [dropLast_concat']
              exact List.mem_cons_of_mem _ h3
            · exact List.mem_cons_of_mem _ (hc q hq)
          · rw [if_neg h3] at h; exact absurd h (by simp)

lemma createWalk_rerun {files : List (List String)} :
    ∀ (cs : List PComp) (dirs : List (List String)) (acc : List String)
      (d' : List (List String)) (a : List String),
      createWalk files dirs acc cs = some (d', a) →
      createWalk files d' acc cs = some (d', a) := by
  intro cs
  induction cs with
  | nil =>
    intro dirs acc d' a h
    simp only [createWalk] at h ⊢
    obtain ⟨h1, h2⟩ := Prod.mk.injEq .. ▸ Option.some.inj h
    rw [h2]
  | cons c rest ih =>
    intro dirs acc d' a h
    cases c with
    | cur =>
      simp only [createWalk] at h ⊢
      by_cases hm : acc ∈ dirs
      · rw [if_pos hm] at h
        rw [if_pos (createWalk_subset rest dirs acc d' a h hm)]
        exact ih dirs acc d' a h
      · rw [if_neg hm] at h; exact absurd h (by simp)
    | up =>
      simp only [createWalk] at h ⊢
      by_cases hm : acc ∈ dirs
      · rw [if_pos hm] at h
        rw [if_pos (createWalk_subset rest dirs acc.dropLast d' a h hm)]
        exact ih dirs acc.dropLast d' a h
      · rw [if_neg hm] at h; exact absurd h (by simp)
    | normal n =>
      simp only [createWalk] at h ⊢
      by_cases h1 : acc ++ [n] ∈ dirs
      · rw [if_pos h1] at h
        rw [if_pos (createWalk_subset rest dirs (acc ++ [n]) d' a h h1)]
        exact ih dirs (acc ++ [n]) d' a h
      · rw [if_neg h1] at h
        by_cases h2 : acc ++ [n] ∈ files
        · rw [if_pos h2] at h; exact absurd h (by simp)
        · rw [if_neg h2] at h
          by_cases h3 : acc ∈ dirs
          · rw [if_pos h3] at h
            have hsub := createWalk_subset rest _ _ d' a h
            rw [if_pos (hsub (List.mem_cons_self _ _))]
            exact ih _ (acc ++ [n]) d' a h
          · rw [if_neg h3] at h; exact absurd h (by simp)

lemma createWalk_walkD {files : List (List String)} :
    ∀ (cs : List PComp) (dirs : List (List String)) (acc : List String)
      (d' : List (List String)) (a : List String),
      ClosedDirs dirs → createWalk files dirs acc cs = some (d', a) →
      walkD d' acc cs = some a := by
  intro cs
  induction cs with
  | nil =>
    intro dirs acc d' a _ h
    simp only [createWalk] at h
    obtain ⟨_, h2⟩ := Prod.mk.injEq .. ▸ Option.some.inj h
    simp [walkD, h2]
  | cons c rest ih =>
    intro dirs acc d' a hc h
    cases c with
    | cur =>
      simp only [createWalk] at h
      by_cases hm : acc ∈ dirs
      · rw [if_pos hm] at h
        have hsub := createWalk_subset rest dirs acc d' a h
        simp only [walkD, stepComp]
        rw [if_pos (hsub hm)]
        exact ih dirs acc d' a hc h
      · rw [if_neg hm] at h; exact absurd h (by simp)
    | up =>
      simp only [createWalk] at h
      by_cases hm : acc ∈ dirs
      · rw [if_pos hm] at h
        have hsub := createWalk_subset rest dirs acc.dropLast d' a h
        simp only [walkD, stepComp]
        rw [if_pos (hsub hm)]
        exact ih dirs acc.dropLast d' a hc h
      · rw [if_neg hm] at h; exact absurd h (by simp)
    | normal n =>
      simp only [createWalk] at h
      by_cases h1 : acc ++ [n] ∈ dirs
      · rw [if_pos h1] at h
        have hsub := createWalk_subset rest dirs (acc ++ [n]) d' a h
        have hclo : ClosedDirs d' := createWalk_closed rest dirs (acc ++ [n]) d' a hc h
        have hacc : acc ∈ d' := by
          have := hclo (acc ++ [n]) (hsub h1)
          rwa [dropLast_concat'] at this
        simp only [walkD, stepComp]
        rw [if_pos hacc]
        exact ih dirs (acc ++ [n]) d' a hc h
      · rw [if_neg h1] at h
        by_cases h2 : acc ++ [n] ∈ files
        · rw [if_pos h2] at h; exact absurd h (by simp)
        · rw [if_neg h2] at h
          by_cases h3 : acc ∈ dirs
          · rw [if_pos h3] at h
            have hsub := createWalk_subset rest _ _ d' a h
            have hc2 : ClosedDirs ((acc ++ [n]) :: dirs) := by
              intro q hq
              rcases List.mem_cons.mp hq with hq | hq
              · subst hq
                rw [dropLast_concat']
                exact List.mem_cons_of_mem _ h3
              · exact List.mem_cons_of_mem _ (hc q hq)
            simp only [walkD, stepComp]
            rw [if_pos (hsub (List.mem_cons_of_mem _ h3))]
            exact ih _ (acc ++ [n]) d' a hc2 h
          · rw [if_neg h3] at h; exact absurd h (by simp)

/-! ### Collection lemmas -/

lemma collectPaths_firstErr_some :
    ∀ (l : List (Except LogErr (List String))) (e : LogErr),
      firstErr l = some e → collectPaths l = Except.error e := by
  intro l
  induction l with
  | nil => intro e h; simp [firstErr] at h
  | cons x rest ih =>
    intro e h
    cases x with
    | error e' =>
      simp only [firstErr] at h
      simp [collectPaths, Except.map, Option.some.inj h]
    | ok p =>
      simp only [firstErr] at h
      simp [collectPaths, Except.map, ih e h]

lemma collectPaths_firstErr_none :
    ∀ (l : List (Except LogErr (List String))),
      firstErr l = none → ∃ S, collectPaths l = Except.ok S := by
  intro l
  induction l with
  | nil => intro _; exact ⟨[], rfl⟩
  | cons x rest ih =>
    intro h
    cases x with
    | error e' => simp [firstErr] at h
    | ok p =>
      simp only [firstErr] at h
      obtain ⟨S, hS⟩ := ih h
      exact ⟨insertPath p S, by simp [collectPaths, Except.map, hS]⟩

instance {α β : Type} [DecidableEq α] [DecidableEq β] : DecidableEq (Except α β) := fun a b =>
  match a, b with
  | Except.ok x, Except.ok y =>
    if h : x = y then isTrue (congrArg Except.ok h)
    else isFalse (fun he => h (Except.ok.inj he))
  | Except.error x, Except.error y =>
    if h : x = y then isTrue (congrArg Except.error h)
    else isFalse (fun he => h (Except.error.inj he))
  | Except.ok _, Except.error _ => isFalse (fun he => Except.noConfusion he)
  | Except.error _, Except.ok _ => isFalse (fun he => Except.noConfusion he)

/-! ### Claim theorems -/

/-- C2: aggregation adds exactly one synthesized default destination
(`aitios-log-<timestamp>.log`) when the log-flag occurrence count `k`
exceeds the number `m` of explicit values, and none when `k ≤ m`,
regardless of how large `k - m` is: with `k ≤ m` the aggregation equals the
one with no free occurrences at all, and with `k > m` it equals the
aggregation in which the single synthesized default is appended to the
explicit values — for every `k`. -/
theorem c2_default_synthesis_counting (fs : Fs) (explicit : List String) (k : Nat)
    (additional : List String) (dt : String) :
    (k ≤ explicit.length →
      canonical_log_file_paths fs explicit k additional dt =
        canonical_log_file_paths fs explicit 0 additional dt) ∧
    (explicit.length < k →
      canonical_log_file_paths fs explicit k additional dt =
        canonical_log_file_paths fs
          (explicit ++ [synthesize_datetime_log_filename dt]) 0 additional dt) := by
  constructor
  · intro h
    have h1 : ¬ (explicit.length < k) := by omega
    simp [canonical_log_file_paths, logEntries, h1]
  · intro h
    simp [canonical_log_file_paths, logEntries, h]

/-- Witness for C2 at `k = 5`, `m = 1`: exactly one default is synthesized. -/
theorem c2_default_synthesis_counting_witness :
    canonical_log_file_paths fs1 ["a.log"] 5 [] "T" =
      canonical_log_file_paths fs1 (["a.log"] ++ [synthesize_datetime_log_filename "T"]) 0 []
        "T" :=
  (c2_default_synthesis_counting fs1 ["a.log"] 5 [] "T").2 (by decide)

/-- C4: a raw destination that (after substitution) names an existing
directory normalizes to the canonical form of that directory with the
synthesized default filename appended; in particular the filename component
of the result is exactly `aitios-log-<timestamp>.log`. -/
theorem c4_directory_target (fs : Fs) (raw dt : String)
    (hd : rustIsDir fs (substDatetime raw dt) = true) :
    ∃ p, canonicalizeStr fs (substDatetime raw dt) = some p ∧
      log_arg_to_log_path fs raw dt =
        (LogRes.ok (p ++ [synthesize_datetime_log_filename dt]), fs) ∧
      (p ++ [synthesize_datetime_log_filename dt]).getLast? =
        some (synthesize_datetime_log_filename dt) := by
  have hd' := hd
  rw [rustIsDir, rustIsDirComps] at hd'
  cases hres : resolveComps fs (parsePath (substDatetime raw dt)).1
      (parsePath (substDatetime raw dt)).2 with
  | none => rw [hres] at hd'; simp at hd'
  | some p =>
    rw [hres] at hd'
    simp only [decide_eq_true_eq] at hd'
    have hcanon : canonicalizeStr fs (substDatetime raw dt) = some p := by
      rw [canonicalizeStr, canonicalizeComps, hres]
      simp [hd']
    refine ⟨p, hcanon, ?_, ?_⟩
    · simp [log_arg_to_log_path, logPathOfSubst, hd, hcanon]
    · simp

/-- Witness for C4: normalizing `.` in `fs1` (cwd `/w` is a directory). -/
theorem c4_directory_target_witness :
    ∃ p, canonicalizeStr fs1 (substDatetime "." "T") = some p ∧
      log_arg_to_log_path fs1 "." "T" =
        (LogRes.ok (p ++ [synthesize_datetime_log_filename "T"]), fs1) ∧
      (p ++ [synthesize_datetime_log_filename "T"]).getLast? =
        some (synthesize_datetime_log_filename "T") :=
  c4_directory_target fs1 "." "T" (by decide)

/-- C5 counterexample: the claim quantifies over every bare single-component
raw destination, but `plain.log` naming an existing directory normalizes to
that directory plus the synthesized default filename, not to
`canonicalize(W)/plain.log`. -/
theorem c5_single_component_counterexample :
    log_arg_to_log_path fs2 "plain.log" "T" =
      (LogRes.ok ["w", "plain.log", "aitios-log-T.log"], fs2) ∧
    (["w", "plain.log", "aitios-log-T.log"] : List String) ≠ fs2.cwdPath ++ ["plain.log"] := by
  constructor
  · decide
  · decide

/-- C5 amended: a bare single-component raw destination that does not name
an existing directory normalizes to the canonical working directory with the
filename appended. -/
theorem c5_single_component_amended (fs : Fs) (raw dt f : String)
    (hp : parsePath (substDatetime raw dt) = (false, [PComp.normal f]))
    (hcwd : fs.cwdPath ∈ fs.dirs)
    (hnd : fs.cwdPath ++ [f] ∉ fs.dirs) :
    log_arg_to_log_path fs raw dt = (LogRes.ok (fs.cwdPath ++ [f]), fs) := by
  have hres : resolveComps fs false [PComp.normal f] = some (fs.cwdPath ++ [f]) := by
    rw [resolveComps, if_neg (by simp), startBase]
    simp [walkD, stepComp, hcwd]
  have hd : rustIsDir fs (substDatetime raw dt) = false := by
    rw [rustIsDir, hp]
    simp [rustIsDirComps, hres, hnd]
  by_cases hf : fs.cwdPath ++ [f] ∈ fs.files
  · have hfile : rustIsFile fs (substDatetime raw dt) = true := by
      rw [rustIsFile, hp]; simp [rustIsFileComps, hres, hf]
    have hcanon : canonicalizeStr fs (substDatetime raw dt) = some (fs.cwdPath ++ [f]) := by
      rw [canonicalizeStr, hp]; simp [canonicalizeComps, hres, Or.inr hf]
    simp [log_arg_to_log_path, logPathOfSubst, hd, hfile, hcanon]
  · have hfile : rustIsFile fs (substDatetime raw dt) = false := by
      rw [rustIsFile, hp]; simp [rustIsFileComps, hres, hf]
    simp [log_arg_to_log_path, logPathOfSubst, hd, hfile, hp, hcwd, stepComp]

/-- Witness for the amended C5: `plain.log` in `fs1` resolves to `/w/plain.log`. -/
theorem c5_single_component_amended_witness :
    log_arg_to_log_path fs1 "plain.log" "T" = (LogRes.ok (fs1.cwdPath ++ ["plain.log"]), fs1) :=
  c5_single_component_amended fs1 "plain.log" "T" "plain.log" (by decide) (by decide)
    (by decide)

/-- C6: when creating the missing parent directories fails (here because
`/w/f` is an existing regular file in the way of `create_dir_all("f/sub")`),
`log_arg_to_log_path` does not return a `DirectoryCreationFailed`-style
error value: the source calls `create_dir_all(parent).unwrap()` and the
process panics. -/
theorem c6_directory_creation_panics :
    log_arg_to_log_path fs3 "f/sub/x.log" "T" = (LogRes.panicked, fs3) := by
  decide

/-- C7 counterexample: the unresolvable-path error carries the destination
string after substitution, not the original raw string: normalizing the raw
string containing only the datetime token with an empty timestamp yields an
error carrying the empty string, not the raw token text. -/
theorem c7_unresolvable_counterexample :
    log_arg_to_log_path fs1 "{datetime}" "" = (LogRes.err (LogErr.unresolvable ""), fs1) ∧
    LogRes.err (LogErr.unresolvable "") ≠ LogRes.err (LogErr.unresolvable "{datetime}") := by
  constructor
  · rfl
  · decide

/-- C7 amended: the unresolvable-path error is returned exactly in the
no-parent case (the substituted destination has no components and is not an
existing directory or file), and it carries the destination string after
substitution. -/
theorem c7_unresolvable_amended (fs : Fs) (raw dt : String)
    (hcs : (parsePath (substDatetime raw dt)).2 = [])
    (hd : rustIsDir fs (substDatetime raw dt) = false)
    (hf : rustIsFile fs (substDatetime raw dt) = false) :
    log_arg_to_log_path fs raw dt =
      (LogRes.err (LogErr.unresolvable (substDatetime raw dt)), fs) := by
  simp [log_arg_to_log_path, logPathOfSubst, hcs, hd, hf]

/-- Witness for the amended C7 at the counterexample input. -/
theorem c7_unresolvable_amended_witness :
    log_arg_to_log_path fs1 "{datetime}" "" =
      (LogRes.err (LogErr.unresolvable (substDatetime "{datetime}" "")), fs1) :=
  c7_unresolvable_amended fs1 "{datetime}" "" (by decide) (by decide) (by decide)

/-- C8: aggregation is fail-fast in its result: whenever the normalization
pass over all entries (from all three sources) contains at least one error,
the aggregation returns the first such entry's error and produces no
destination set; when no entry fails it produces a set. -/
theorem c8_fail_fast_aggregation (fs : Fs) (e : List String) (o : Nat) (a : List String)
    (dt : String) (l : List (Except LogErr (List String))) (fs' : Fs)
    (hrun : runEntries dt fs (logEntries e o a dt) = some (l, fs')) :
    (∀ er, firstErr l = some er →
        canonical_log_file_paths fs e o a dt = some (Except.error er, fs')) ∧
    (firstErr l = none →
        ∃ S, canonical_log_file_paths fs e o a dt = some (Except.ok S, fs')) := by
  constructor
  · intro er her
    rw [canonical_log_file_paths, hrun]
    simp [collectPaths_firstErr_some l er her]
  · intro hnone
    obtain ⟨S, hS⟩ := collectPaths_firstErr_none l hnone
    exact ⟨S, by rw [canonical_log_file_paths, hrun]; simp [hS]⟩

/-- Witness for C8: an unresolvable first entry aborts the aggregation with
exactly that error. -/
theorem c8_fail_fast_aggregation_witness :
    canonical_log_file_paths fs1 ["", "x.log"] 2 [] "T" =
      some (Except.error (LogErr.unresolvable ""), fs1) :=
  (c8_fail_fast_aggregation fs1 ["", "x.log"] 2 [] "T"
      [Except.error (LogErr.unresolvable ""), Except.ok ["w", "x.log"]] fs1 (by rfl)).1
    (LogErr.unresolvable "") (by rfl)

/-- C10: normalizing the empty raw destination always fails with the
ordinary unresolvable-path error value (the no-parent branch), for every
filesystem state and timestamp: it never yields a path, never mutates the
filesystem, and never panics. -/
theorem c10_empty_destination_error (fs : Fs) (dt : String) :
    log_arg_to_log_path fs "" dt = (LogRes.err (LogErr.unresolvable ""), fs) := by
  rfl

/-- Failure of `configure_logging` with a returned error leaves the terminal
availability and the installed-logger state unchanged. -/
lemma configure_err_preserves (w : LogWorld) (v : Nat) (e : List String) (o : Nat)
    (a : List String) (dt : String) (w' : LogWorld)
    (h : configure_logging w v e o a dt = (InitRes.err, w')) :
    w'.termAvailable = w.termAvailable ∧ w'.installed = w.installed := by
  rw [configure_logging] at h
  repeat' split at h
  all_goals simp only [Prod.mk.injEq] at h
  all_goals first
    | (exact absurd h.1 (by decide))
    | (rw [← h.2]; exact ⟨rfl, rfl⟩)

/-- C9 counterexample: the claim says a failed sink assembly always ends
with a console-only Warn sink installed and success returned, but when the
console sink itself cannot be constructed (no terminal), the fallback
`TermLogger::init` fails as well and `init_logging` returns an error. -/
theorem c9_fallback_counterexample :
    init_logging w0 0 [] 0 none "T" = (InitRes.err, w0) ∧ InitRes.err ≠ InitRes.ok := by
  exact ⟨rfl, by decide⟩

/-- C9 amended: whenever sink assembly fails with a returned error and the
fallback console logger can itself be installed (a terminal is available and
no logger has been installed yet), `init_logging` installs the console-only
Warn sink and returns success; the original assembly error never
propagates. -/
theorem c9_fallback_amended (w : LogWorld) (v : Nat) (e : List String) (o : Nat)
    (ap : Option String) (dt : String) (w' : LogWorld)
    (hterm : w.termAvailable = true) (hinst : w.installed = none)
    (hcfg : configure_logging w v e o ap.toList dt = (InitRes.err, w')) :
    init_logging w v e o ap dt =
      (InitRes.ok, { w' with installed := some (SinkKind.term LevelFilter.Warn) }) := by
  obtain ⟨h1, h2⟩ := configure_err_preserves w v e o ap.toList dt w' hcfg
  simp only [init_logging, hcfg]
  rw [init_logging_fallback, if_pos ⟨h1.trans hterm, h2.trans hinst⟩]

/-- Witness for the amended C9: an unwritable destination makes assembly
fail, and the fallback Warn console logger is installed with success. -/
theorem c9_fallback_amended_witness :
    init_logging w1 0 ["bad.log"] 1 none "T" =
      (InitRes.ok, { w1 with installed := some (SinkKind.term LevelFilter.Warn) }) :=
  c9_fallback_amended w1 0 ["bad.log"] 1 none "T" w1 (by decide) (by decide) (by decide)


instance (dirs : List (List String)) : Decidable (ClosedDirs dirs) := by
  unfold ClosedDirs
  infer_instance

/-- Normalization factors through resolution: if the substituted raw string
resolves (stat-like) to the canonical location `p`, the normalized result is
determined by `p` alone — `p` plus the synthesized default filename when `p`
is an existing directory, otherwise `p` itself — and the filesystem is left
unchanged. -/
lemma log_of_resolve (fs : Fs) (s dt : String) (p : List String)
    (hroot : [] ∈ fs.dirs) (hclosed : ClosedDirs fs.dirs)
    (hres : resolveStr fs s = some p) :
    logPathOfSubst fs s dt =
      (LogRes.ok (if p ∈ fs.dirs then p ++ [synthesize_datetime_log_filename dt] else p),
       fs) := by
  rw [resolveStr] at hres
  by_cases hd : p ∈ fs.dirs
  · have hisdir : rustIsDir fs s = true := by
      rw [rustIsDir, rustIsDirComps, hres]; simp [hd]
    have hcanon : canonicalizeStr fs s = some p := by
      rw [canonicalizeStr, canonicalizeComps, hres]; simp [hd]
    simp [logPathOfSubst, hisdir, hcanon, hd]
  · have hisdir : rustIsDir fs s = false := by
      rw [rustIsDir, rustIsDirComps, hres]; simp [hd]
    by_cases hf : p ∈ fs.files
    · have hisfile : rustIsFile fs s = true := by
        rw [rustIsFile, rustIsFileComps, hres]; simp [hf]
      have hcanon : canonicalizeStr fs s = some p := by
        rw [canonicalizeStr, canonicalizeComps, hres]; simp [hf]
      simp [logPathOfSubst, hisdir, hisfile, hcanon, hd]
    · have hisfile : rustIsFile fs s = false := by
        rw [rustIsFile, rustIsFileComps, hres]; simp [hf]
      rw [resolveComps] at hres
      by_cases hcond : (parsePath s).1 = false ∧ (parsePath s).2 = []
      · rw [if_pos hcond] at hres; simp at hres
      · rw [if_neg hcond] at hres
        cases hcse : (parsePath s).2 with
        | nil =>
          have habs : (parsePath s).1 = true := by
            cases hab : (parsePath s).1 with
            | false => exact absurd ⟨hab, hcse⟩ hcond
            | true => rfl
          rw [hcse, habs] at hres
          simp only [walkD, startBase, if_pos rfl] at hres
          have hp : p = [] := by
            have := Option.some.inj hres
            simp at this
            exact this
          exact absurd (hp ▸ hroot) hd
        | cons c0 rest =>
          have hcsne : (parsePath s).2 ≠ [] := by rw [hcse]; simp
          have hsplit := List.dropLast_append_getLast hcsne
          rw [← hsplit] at hres
          obtain ⟨m, hm, hmem, hstep⟩ := walkD_concat_some hres
          cases hlast : (parsePath s).2.getLast hcsne with
          | cur =>
            rw [hlast] at hstep
            simp only [stepComp] at hstep
            exact absurd (hstep ▸ hmem) hd
          | up =>
            rw [hlast] at hstep
            simp only [stepComp] at hstep
            exact absurd (hstep ▸ hclosed m hmem) hd
          | normal f =>
            rw [hlast] at hstep
            simp only [stepComp] at hstep
            by_cases hone : (parsePath s).1 = false ∧ (parsePath s).2.length = 1
            · -- bare single component resolved under cwd
              have hrest : rest = [] := by
                have := hone.2
                rw [hcse] at this
                simpa using this
              have hcs1 : (parsePath s).2 = [PComp.normal f] := by
                conv_lhs => rw [← hsplit]
                rw [hlast]
                rw [hcse, hrest]
                simp
              have hdrop : (parsePath s).2.dropLast = [] := by
                rw [hcs1]
                simp only [List.dropLast_single]
              rw [hdrop] at hm
              simp only [walkD] at hm
              have hmbase : m = startBase fs (parsePath s).1 := (Option.some.inj hm).symm
              rw [startBase, hone.1] at hmbase
              simp only [if_neg (by simp : ¬ (false : Bool) = true)] at hmbase
              -- hmbase : m = fs.cwdPath
              have hcwd : fs.cwdPath ∈ fs.dirs := hmbase ▸ hmem
              rw [hstep, hmbase] at hd
              simp [logPathOfSubst, hisdir, hisfile, hcs1, hone, hcwd, stepComp, hstep,
                hmbase, hd]
            · -- parent directory exists
              have hdropne : ¬ ((parsePath s).1 = false ∧ (parsePath s).2.dropLast = []) := by
                rintro ⟨ha, hnil⟩
                apply hone
                refine ⟨ha, ?_⟩
                have h1 : (parsePath s).2.length - 1 = 0 := by
                  rw [← List.length_dropLast, hnil]; rfl
                have h2 : (parsePath s).2.length ≠ 0 := by
                  rw [hcse]; simp
                omega
              have hpcs : resolveComps fs (parsePath s).1 (parsePath s).2.dropLast = some m := by
                rw [resolveComps, if_neg hdropne]; exact hm
              have hpd : rustIsDirComps fs (parsePath s).1 (parsePath s).2.dropLast = true := by
                rw [rustIsDirComps, hpcs]; simp [hmem]
              have hpcanon :
                  canonicalizeComps fs (parsePath s).1 (parsePath s).2.dropLast = some m := by
                rw [canonicalizeComps, hpcs]; simp [hmem]
              have hfname : fileNameC (parsePath s).2 = some f := by
                rw [fileNameC, List.getLast?_eq_getLast _ hcsne, hlast]
              rw [hstep] at hd
              simp [logPathOfSubst, hisdir, hisfile, hcsne, hone, resolveParentAppend, hpd,
                hpcanon, hfname, hstep, hd]

/-- C1: any two raw destinations denoting the same filesystem entity (their
substituted forms resolve to the same canonical location, in a well-formed
filesystem) normalize to equal canonical paths; and equality of canonical
paths is the sole deduplication key: the aggregation of `log1.log` and
`./log1.log` from the CLI plus an injected `./log1.log` contains exactly one
canonical path. -/
theorem c1_canonical_identity_dedup :
    (∀ (fs : Fs) (r1 r2 dt : String) (p : List String),
        [] ∈ fs.dirs → ClosedDirs fs.dirs →
        resolveStr fs (substDatetime r1 dt) = some p →
        resolveStr fs (substDatetime r2 dt) = some p →
        log_arg_to_log_path fs r1 dt = log_arg_to_log_path fs r2 dt) ∧
    canonical_log_file_paths fs1 ["log1.log", "./log1.log"] 2 ["./log1.log"] "T" =
      some (Except.ok [["w", "log1.log"]], fs1) := by
  constructor
  · intro fs r1 r2 dt p hroot hclosed h1 h2
    rw [log_arg_to_log_path, log_arg_to_log_path,
      log_of_resolve fs _ dt p hroot hclosed h1, log_of_resolve fs _ dt p hroot hclosed h2]
  · decide

/-- Witness for C1: `log1.log` and `./log1.log` normalize identically. -/
theorem c1_canonical_identity_dedup_witness :
    log_arg_to_log_path fs1 "log1.log" "T" = log_arg_to_log_path fs1 "./log1.log" "T" :=
  c1_canonical_identity_dedup.1 fs1 "log1.log" "./log1.log" "T" ["w", "log1.log"] (by decide) (by decide)
    (by decide) (by decide)

/-- A successful `file_name` means the component list is non-empty and ends
in that normal name. -/
lemma fileNameC_some {cs : List PComp} {f : String} (h : fileNameC cs = some f) :
    ∃ hne : cs ≠ [], cs.getLast hne = PComp.normal f := by
  rw [fileNameC] at h
  cases hl : cs.getLast? with
  | none => rw [hl] at h; simp at h
  | some c =>
    rw [hl] at h
    have hne : cs ≠ [] := by
      intro he
      rw [he] at hl
      simp at hl
    cases c with
    | cur => simp at h
    | up => simp at h
    | normal n =>
      have hnf : n = f := by simpa using h
      refine ⟨hne, ?_⟩
      have hg := List.getLast?_eq_getLast cs hne
      rw [hl] at hg
      have := Option.some.inj hg
      rw [← this, hnf]

/-- A successful resolution is a successful walk. -/
lemma resolveComps_walkD {fs : Fs} {abs : Bool} {cs : List PComp} {q : List String}
    (h : resolveComps fs abs cs = some q) :
    walkD fs.dirs (startBase fs abs) cs = some q := by
  rw [resolveComps] at h
  by_cases hc : abs = false ∧ cs = []
  · rw [if_pos hc] at h; simp at h
  · rwa [if_neg hc] at h

/-- A successful canonicalization is a successful resolution to an existing
path. -/
lemma canonicalizeComps_some {fs : Fs} {abs : Bool} {cs : List PComp} {q : List String}
    (h : canonicalizeComps fs abs cs = some q) :
    resolveComps fs abs cs = some q ∧ (q ∈ fs.dirs ∨ q ∈ fs.files) := by
  rw [canonicalizeComps] at h
  cases hr : resolveComps fs abs cs with
  | none => rw [hr] at h; simp at h
  | some q' =>
    simp only [hr] at h
    by_cases hm : q' ∈ fs.dirs ∨ q' ∈ fs.files
    · rw [if_pos hm] at h
      have := Option.some.inj h
      subst this
      exact ⟨rfl, hm⟩
    · rw [if_neg hm] at h; simp at h

/-- C3 counterexample: normalization is not idempotent.  In a filesystem
where only the cwd `/w` exists, normalizing `c/f/../f` first creates the
directories `/w/c` and `/w/c/f` (the parent `c/f/..` chain) and returns
`/w/c/f`; the second call finds that the substituted path itself is now an
existing directory, takes the directory branch, and returns
`/w/c/f/aitios-log-T.log` — even though the only filesystem change between
the calls is the directory creation the first call itself performed. -/
theorem c3_idempotence_counterexample :
    log_arg_to_log_path fs1 "c/f/../f" "T" = (LogRes.ok ["w", "c", "f"], fsC3) ∧
    log_arg_to_log_path fsC3 "c/f/../f" "T" =
      (LogRes.ok ["w", "c", "f", "aitios-log-T.log"], fsC3) ∧
    (["w", "c", "f", "aitios-log-T.log"] : List String) ≠ ["w", "c", "f"] := by
  refine ⟨by decide, by decide, by decide⟩

/-- C3 amended: normalization is idempotent provided the first call's own
directory creation does not bring the substituted destination path itself
into existence as a directory: if the first call succeeds with path `p` and
new state `fs'`, and the substituted string is a directory in `fs'` exactly
when it was one in `fs`, then the second call returns the same path `p` and
leaves the filesystem at `fs'`. -/
theorem c3_idempotence_amended (fs : Fs) (arg dt : String) (p : List String) (fs' : Fs)
    (hclosed : ClosedDirs fs.dirs)
    (h1 : log_arg_to_log_path fs arg dt = (LogRes.ok p, fs'))
    (hstable : rustIsDir fs' (substDatetime arg dt) = rustIsDir fs (substDatetime arg dt)) :
    log_arg_to_log_path fs' arg dt = (LogRes.ok p, fs') := by
  have h0 := h1
  by_cases hfs : fs' = fs
  · subst hfs
    exact h0
  -- the filesystem changed, so the first call took the directory-creation branch
  rw [log_arg_to_log_path] at h1 ⊢
  rw [logPathOfSubst] at h1
  by_cases hd : rustIsDir fs (substDatetime arg dt) = true
  · -- directory branch leaves fs unchanged: contradiction with hfs
    exfalso
    simp only [hd, if_true] at h1
    cases hc : canonicalizeStr fs (substDatetime arg dt) with
    | some q => simp only [hc, Prod.mk.injEq] at h1; exact hfs h1.2.symm
    | none => simp only [hc] at h1; simp at h1
  have hd' : rustIsDir fs (substDatetime arg dt) = false := by
    revert hd; cases rustIsDir fs (substDatetime arg dt) <;> simp
  simp only [hd', Bool.false_eq_true, if_false] at h1
  by_cases hf : rustIsFile fs (substDatetime arg dt) = true
  · -- file branch leaves fs unchanged: contradiction
    exfalso
    simp only [hf, if_true] at h1
    cases hc : canonicalizeStr fs (substDatetime arg dt) with
    | some q => simp only [hc, Prod.mk.injEq] at h1; exact hfs h1.2.symm
    | none => simp only [hc] at h1; simp at h1
  have hf' : rustIsFile fs (substDatetime arg dt) = false := by
    revert hf; cases rustIsFile fs (substDatetime arg dt) <;> simp
  simp only [hf', Bool.false_eq_true, if_false] at h1
  by_cases hcs : (parsePath (substDatetime arg dt)).2 = []
  · simp only [hcs, if_true] at h1; simp at h1
  simp only [hcs, if_false] at h1
  by_cases hone : (parsePath (substDatetime arg dt)).1 = false ∧
      (parsePath (substDatetime arg dt)).2.length = 1
  · -- cwd branch leaves fs unchanged: contradiction
    exfalso
    rw [if_pos hone] at h1
    by_cases hcw : fs.cwdPath ∈ fs.dirs
    · rw [if_pos hcw] at h1
      simp only [Prod.mk.injEq] at h1
      exact hfs h1.2.symm
    · rw [if_neg hcw] at h1
      simp at h1
  simp only [hone, if_false] at h1
  rw [resolveParentAppend] at h1
  by_cases hpd : rustIsDirComps fs (parsePath (substDatetime arg dt)).1
      (parsePath (substDatetime arg dt)).2.dropLast = true
  · -- parent-is-dir branch leaves fs unchanged: contradiction
    exfalso
    simp only [hpd, if_true] at h1
    cases hc : canonicalizeComps fs (parsePath (substDatetime arg dt)).1
        (parsePath (substDatetime arg dt)).2.dropLast with
    | some q =>
      simp only [hc] at h1
      cases hn : fileNameC (parsePath (substDatetime arg dt)).2 with
      | some f => simp only [hn, Prod.mk.injEq] at h1; exact hfs h1.2.symm
      | none => simp only [hn] at h1; simp at h1
    | none => simp only [hc] at h1; simp at h1
  simp only [hpd, if_false] at h1
  -- now the create branch: extract the pieces
  rw [create_dir_all] at h1
  cases hcw : createWalk fs.files fs.dirs (startBase fs (parsePath (substDatetime arg dt)).1)
      (parsePath (substDatetime arg dt)).2.dropLast with
  | none => simp only [hcw] at h1; simp at h1
  | some pr =>
    obtain ⟨d, aEnd⟩ := pr
    simp only [hcw] at h1
    cases hc : canonicalizeComps { fs with dirs := d } (parsePath (substDatetime arg dt)).1
        (parsePath (substDatetime arg dt)).2.dropLast with
    | none => simp only [hc] at h1; simp at h1
    | some q =>
      simp only [hc] at h1
      cases hn : fileNameC (parsePath (substDatetime arg dt)).2 with
      | none => simp only [hn] at h1; simp at h1
      | some f =>
        simp only [hn, Prod.mk.injEq] at h1
        obtain ⟨rfl, rfl⟩ := h1
        have hd2 : rustIsDir { fs with dirs := d } (substDatetime arg dt) = false :=
          hstable.trans hd'
        obtain ⟨hqres, hqmem⟩ := canonicalizeComps_some hc
        have hwalkq := resolveComps_walkD hqres
        obtain ⟨hne, hlast⟩ := fileNameC_some hn
        have hsplit := List.dropLast_append_getLast hne
        have hfull : resolveComps { fs with dirs := d } (parsePath (substDatetime arg dt)).1
            (parsePath (substDatetime arg dt)).2 =
            if q ∈ ({ fs with dirs := d } : Fs).dirs then some (q ++ [f]) else none := by
          rw [resolveComps, if_neg (fun hx => hcs hx.2)]
          rw [← hsplit, walkD_append, hwalkq, hlast]
          show walkD _ q [PComp.normal f] = _
          simp [walkD, stepComp]
        by_cases hf2 : rustIsFile { fs with dirs := d } (substDatetime arg dt) = true
        · have hqd : q ∈ ({ fs with dirs := d } : Fs).dirs := by
            by_contra hqd
            rw [rustIsFile, rustIsFileComps, hfull, if_neg hqd] at hf2
            simp at hf2
          have hre : resolveComps { fs with dirs := d } (parsePath (substDatetime arg dt)).1
              (parsePath (substDatetime arg dt)).2 = some (q ++ [f]) := by
            rw [hfull, if_pos hqd]
          have hfmem : q ++ [f] ∈ ({ fs with dirs := d } : Fs).files := by
            rw [rustIsFile, rustIsFileComps, hre] at hf2
            simpa using hf2
          have hcanonF : canonicalizeStr { fs with dirs := d } (substDatetime arg dt) =
              some (q ++ [f]) := by
            rw [canonicalizeStr, canonicalizeComps, hre]
            simp [hfmem]
          simp [logPathOfSubst, hd2, hf2, hcanonF]
        · have hf2' : rustIsFile { fs with dirs := d } (substDatetime arg dt) = false := by
            revert hf2
            cases rustIsFile { fs with dirs := d } (substDatetime arg dt) <;> simp
          by_cases hpd2 : rustIsDirComps { fs with dirs := d }
              (parsePath (substDatetime arg dt)).1
              (parsePath (substDatetime arg dt)).2.dropLast = true
          · simp [logPathOfSubst, hd2, hf2', hcs, hone, resolveParentAppend, hpd2, hc, hn]
          · have hrerun := createWalk_rerun (parsePath (substDatetime arg dt)).2.dropLast
              fs.dirs (startBase fs (parsePath (substDatetime arg dt)).1) d aEnd hcw
            have hcda2 : create_dir_all { fs with dirs := d }
                (parsePath (substDatetime arg dt)).1
                (parsePath (substDatetime arg dt)).2.dropLast = some { fs with dirs := d } := by
              rw [create_dir_all]
              have hstart : startBase { fs with dirs := d }
                  (parsePath (substDatetime arg dt)).1 =
                  startBase fs (parsePath (substDatetime arg dt)).1 := rfl
              rw [hstart]
              show (match createWalk fs.files d
                  (startBase fs (parsePath (substDatetime arg dt)).1)
                  (parsePath (substDatetime arg dt)).2.dropLast with
                | some (d', _) => some { fs with dirs := d' }
                | none => none) = _
              rw [hrerun]
            simp [logPathOfSubst, hd2, hf2', hcs, hone, resolveParentAppend, hpd2, hcda2,
              hc, hn]

/-- Witness for the amended C3: `a/b.log` (creating `/w/a`) normalizes the
same way the second time. -/
theorem c3_idempotence_amended_witness :
    log_arg_to_log_path fsA "a/b.log" "T" = (LogRes.ok ["w", "a", "b.log"], fsA) :=
  c3_idempotence_amended fs1 "a/b.log" "T" ["w", "a", "b.log"] fsA (by decide) (by decide)
    (by decide)
